import Mathlib

/-!
# Verification of the TAF TUF metadata repository engine

Shallow embedding of `taf/tuf/repository.py` (class `MetadataRepository`)
and proofs about the engine's delegation resolver, edit/close protocol,
creation protocol, key revocation, expiration service and target-file
drift reconciliation.

Python strings are `String`, Python lists are `List`, Python dicts are
association lists (insertion ordered, as CPython dicts are), and fallible
code returns `Except`/`Option`.
-/

namespace Taf

/-! ## `fnmatch` — Python's `fnmatch.fnmatch`

`map_signing_roles` matches target paths against delegation path patterns
with `fnmatch.fnmatch(name, pattern)`.  Following `fnmatch.translate`,
`*` becomes the regex `.*` (any character sequence — the path separator is
NOT special to `fnmatch`), `?` becomes `.` (any single character), and every
other character is literal.  Character classes (`[...]`) never occur in this
repository's delegation paths and are not modelled.  On POSIX
`os.path.normcase` is the identity, so no case folding happens. -/

/-- The regex `.*` (what `*` translates to) consumes an arbitrary prefix of
the name and leaves the remainder to the rest of the pattern: `starMatch f cs`
holds iff `f` accepts some suffix of `cs` (including `cs` itself). -/
def starMatch (f : List Char → Bool) : List Char → Bool
  | [] => f []
  | c :: cs => f (c :: cs) || starMatch f cs

def fnmatchList : List Char → List Char → Bool
  | [], cs => cs.isEmpty
  | p :: ps, cs =>
    if p = '*' then starMatch (fnmatchList ps) cs
    else
      match cs with
      | [] => false
      | c :: cs' => (if p = '?' then true else p == c) && fnmatchList ps cs'

/-- Python `fnmatch.fnmatch(name, pattern)` (POSIX, no character classes). -/
def fnmatch (name pattern : String) : Bool :=
  fnmatchList pattern.data name.data

/-- Python `s.lstrip(os.sep)` with `os.sep = "/"`: remove every leading
separator character. -/
def lstripSep (s : String) : String :=
  String.mk (s.data.dropWhile (fun c => c == '/'))

/-! ## The delegation store

`map_signing_roles` reads roles through `get_role_paths` (the `paths` of a
delegated role's descriptor, or the literal string `"*"` for `targets`) and
`get_delegations_of_role` (the names in the role's `delegations.roles`, or
`[]` when there are none).  We back both by a name-keyed store. -/

structure RoleData where
  paths : List String
  terminating : Bool
  delegations : List String
deriving DecidableEq, Repr

abbrev Store := List (String × RoleData)

def lookupRole (s : Store) (name : String) : Option RoleData :=
  (s.find? (fun p => p.1 == name)).map (fun p => p.2)

/-- Model of `get_role_paths`: `"*"` for the top-level targets role — the Python
function returns the *string* `"*"`, and the caller's `for path_pattern in
path_patterns` iterates it character by character, yielding the single
one-character pattern `"*"` — otherwise the delegated role's `paths`.
(The Python raises `TAFError` for a role that does not exist; the stores our
theorems instantiate contain every reachable role.) -/
def getRolePaths (s : Store) (role : String) : List String :=
  if role == "targets" then ["*"]
  else
    match lookupRole s role with
    | some d => d.paths
    | none => []

/-- Model of `get_delegations_of_role`: the delegated role names listed by the role's
`delegations`, or `[]` when the role delegates nothing. -/
def getDelegationsOfRole (s : Store) (role : String) : List String :=
  match lookupRole s role with
  | some d => d.delegations
  | none => []

/-- Assignment `roles_targets[target_filename] = role`: every key of the mapping was
initialized up front, so assignment updates the existing entry in place. -/
def updateAssoc (m : List (String × String)) (k v : String) :
    List (String × String) :=
  m.map (fun p => if p.1 == k then (p.1, v) else p)

/-- The two inner loops of `map_signing_roles`: for each of the role's path
patterns, for each target filename, on an `fnmatch` (with leading separators
stripped from both sides) record the role as the file's signing role. -/
def applyRolePatterns (s : Store) (role : String) (files : List String)
    (m : List (String × String)) : List (String × String) :=
  (getRolePaths s role).foldl
    (fun m1 pat =>
      files.foldl
        (fun m2 f =>
          if fnmatch (lstripSep f) (lstripSep pat) then updateAssoc m2 f role
          else m2)
        m1)
    m

/-- The `while roles:` loop of `map_signing_roles`.  Python's `roles.pop()`
removes and returns the LAST element of the list, and the role's delegations
are appended at the end.  The loop runs as long as the stack is non-empty;
`fuel` bounds the number of iterations (the Python loop would diverge on a
cyclic delegation graph). -/
def mapLoop (s : Store) (files : List String) :
    Nat → List String → List (String × String) → List (String × String)
  | 0, _, m => m
  | _ + 1, [], m => m
  | fuel + 1, r :: rs, m =>
    let role := (r :: rs).getLast (List.cons_ne_nil r rs)
    let rest := (r :: rs).dropLast
    let m1 := applyRolePatterns s role files m
    mapLoop s files fuel (rest ++ getDelegationsOfRole s role) m1

/-- Model of `map_signing_roles(target_filenames)`: every file starts mapped to
`"targets"`, then the delegation graph is traversed from `"targets"` with a
stack, later-visited matching roles overwriting the mapping. -/
def mapSigningRoles (s : Store) (fuel : Nat) (targetFilenames : List String) :
    List (String × String) :=
  mapLoop s targetFilenames fuel ["targets"]
    (targetFilenames.map (fun f => (f, "targets")))

/-- Model of `get_role_from_target_paths(target_paths)`:
`reduce(set.intersection, [{r} for r in roles])` intersects the singleton
role sets; `reduce` over an empty sequence without an initializer raises
`TypeError`, which the function catches and turns into `None`; an empty
intersection also gives `None`; otherwise `common_role.pop()` returns the
single common role. -/
def getRoleFromTargetPaths (s : Store) (fuel : Nat)
    (targetPaths : List String) : Option String :=
  -- roles = list(targets_roles.values())
  match (mapSigningRoles s fuel targetPaths).map (fun p => p.2) with
  | [] => none
  | r :: rest =>
    -- common_role = reduce(set.intersection, [{r} for r in roles])
    match rest.foldl (fun acc x => acc.filter (fun c => c == x)) [r] with
    | [] => none
    | c :: _ => some c

/-- A store with one delegated role `X` whose single path pattern is
`dir1/*` (spec §4.5; claim C4's scenario). -/
def storeDir1 : Store :=
  [("targets", ⟨[], false, ["X"]⟩),
   ("X", ⟨["dir1/*"], false, []⟩)]

/-- A store with a terminating delegated role `X` (pattern `a/*`) whose
child `Y` (pattern `a/b`) is visited after it (claim C5's scenario). -/
def storeTerm : Store :=
  [("targets", ⟨[], false, ["X"]⟩),
   ("X", ⟨["a/*"], true, ["Y"]⟩),
   ("Y", ⟨["a/b"], false, []⟩)]

/-- Overwrite every role's `terminating` flag, leaving paths and delegations
untouched (used to show `map_signing_roles` never reads the flag). -/
def setTerminating (s : Store) (b : Bool) : Store :=
  s.map (fun p => (p.1, { p.2 with terminating := b }))

/-! ## The edit/close protocol (`MetadataRepository.close`, lines 319–343)

`close` runs at the end of every successful edit transaction: the caller
has already mutated the body and (possibly) set the expiry; `close` bumps
the version, re-signs and writes. -/

/-- The signed portion of role metadata as far as `close` manipulates it:
the version counter plus the rest of the signed content, opaque here. -/
structure SignedData where
  version : Nat
  body : String
deriving DecidableEq, Repr

/-- A signature as produced by `md.sign(signer, append=True)`: it carries
the signer's key-id and verifies exactly over the signed portion it was
computed from. -/
structure Signature where
  keyid : String
  signedOver : SignedData
deriving DecidableEq, Repr

/-- A `securesystemslib` signer; the only capability `close` uses is
producing a signature under the signer's key-id. -/
structure Signer where
  keyid : String
deriving DecidableEq, Repr

def signPayload (s : Signer) (sd : SignedData) : Signature := ⟨s.keyid, sd⟩

structure Metadata where
  signed : SignedData
  signatures : List Signature
deriving DecidableEq, Repr

/-- Update (or insert) an entry of an association list, as assignment into
a Python dict does. -/
def setAssoc {α : Type} (m : List (String × α)) (k : String) (v : α) :
    List (String × α) :=
  if (m.find? (fun p => p.1 == k)).isSome then
    m.map (fun p => if p.1 == k then (p.1, v) else p)
  else m ++ [(k, v)]

/-- The repository state `close` touches: the per-role signer cache
(`signer_cache[role].values()`, in dict order), the tracked snapshot
version (`_snapshot_info`), the tracked targets-family versions
(`_targets_infos`), and the metadata files written to disk. -/
structure RepoState where
  signerCache : String → List Signer
  snapshotInfoVersion : Nat
  targetsInfos : List (String × Nat)
  files : List (String × Metadata)

/-- Model of `close(role, md)`: bump the version by exactly one, clear the
signatures and produce one signature per signer in the role's signer cache,
record the new version in the snapshot/targets trackers, and write the file
(`root` additionally gets a `<version>.root.json` copy). -/
def close (st : RepoState) (role : String) (md : Metadata) :
    RepoState × Metadata :=
  let signed : SignedData := { md.signed with version := md.signed.version + 1 }
  let sigs := (st.signerCache role).map (fun s => signPayload s signed)
  let md1 : Metadata := ⟨signed, sigs⟩
  let fname := role ++ ".json"
  let st1 :=
    if role == "snapshot" then { st with snapshotInfoVersion := signed.version }
    else if role == "timestamp" then st
    else { st with targetsInfos := setAssoc st.targetsInfos fname signed.version }
  let files1 := setAssoc st1.files fname md1
  let files2 :=
    if role == "root" then
      setAssoc files1 (toString signed.version ++ "." ++ fname) md1
    else files1
  ({ st1 with files := files2 }, md1)

/-- A role descriptor, as far as signature validity is concerned. -/
structure RoleDescriptor where
  keyids : List String
  threshold : Nat
deriving DecidableEq, Repr

/-- The number of signatures on `md` whose key-id belongs to the role's
descriptor and that verify over `md`'s signed portion. -/
def validSignatureCount (md : Metadata) (descr : RoleDescriptor) : Nat :=
  (md.signatures.filter
    (fun sig => decide (sig.keyid ∈ descr.keyids ∧ sig.signedOver = md.signed))).length

/-! ## Creation protocol: building the delegations
(`MetadataRepository.create`, lines 399–425) -/

/-- One role yielded by `RolesIterator(roles_keys_data.roles.targets)`: its
name, its parent's name (`None` for the top-level targets role itself,
which the loop skips with `continue`), threshold, paths, terminating. -/
structure DelegRoleSpec where
  name : String
  parentName : Option String
  threshold : Nat
  paths : List String
  terminating : Bool
deriving DecidableEq, Repr

/-- Structure `tuf.api.metadata.DelegatedRole` as `create` builds it. -/
structure DelegatedRoleMeta where
  name : String
  threshold : Nat
  paths : List String
  terminating : Bool
  keyids : List String
deriving DecidableEq, Repr

/-- Structure `tuf.api.metadata.Delegations`: the keys dictionary (key-ids only — the
key values are irrelevant to the claims) and the delegated descriptors. -/
structure DelegationsMeta where
  keys : List String
  roles : List DelegatedRoleMeta
deriving DecidableEq, Repr

/-- Insertion into a `defaultdict`: append `v` to the list stored under `k`,
creating the entry at the end on first use (dict insertion order). -/
def appendAssoc {α : Type} (m : List (String × List α)) (k : String) (v : α) :
    List (String × List α) :=
  if (m.find? (fun p => p.1 == k)).isSome then
    m.map (fun p => if p.1 == k then (p.1, p.2 ++ [v]) else p)
  else m ++ [(k, [v])]

/-- The delegation-building slice of `create`.  First loop
(`for role in RolesIterator(roles_keys_data.roles.targets)`): skip the role
with no parent, otherwise store under `delegations_per_parent[parent]` a
`DelegatedRole` whose `keyids` are `public_keys[role.name]`.  Second loop:
attach `Delegations(roles=role_data, keys=public_keys[role.name])` to every
parent — the Python loop variable `role` has leaked out of the first loop
and still holds the LAST role the iterator yielded, so every parent
receives that last role's keys.  (`create` writes this `Delegations` object
into the parent's targets metadata; with no delegated roles the second loop
body never runs.) -/
def buildTargetsDelegations (rolesIter : List DelegRoleSpec)
    (publicKeys : String → List String) : List (String × DelegationsMeta) :=
  let dpp := rolesIter.foldl
    (fun acc role =>
      match role.parentName with
      | none => acc
      | some parent =>
        appendAssoc acc parent
          ⟨role.name, role.threshold, role.paths, role.terminating,
            publicKeys role.name⟩)
    []
  match rolesIter.getLast? with
  | none => []
  | some lastRole =>
    dpp.map (fun p => (p.1, ⟨publicKeys lastRole.name, p.2⟩))

/-- C3's scenario: `targets` plus two delegated roles `A` and `B`, in
iterator order, each holding its own distinct key. -/
def rolesAB : List DelegRoleSpec :=
  [⟨"targets", none, 1, [], false⟩,
   ⟨"A", some "targets", 1, ["a/*"], false⟩,
   ⟨"B", some "targets", 1, ["b/*"], false⟩]

def publicKeysAB : String → List String := fun n =>
  if n = "A" then ["ka"] else if n = "B" then ["kb"] else []

/-! ## Key revocation (`MetadataRepository.revoke_metadata_key`,
lines 1028–1089) -/

/-- The repository slice revocation reads and writes: every role's
descriptor `(keyids, threshold)` — main-role descriptors live in root's
metadata, delegated ones in their parent's targets metadata — the version
of every role's metadata file, and each delegated role's parent
(`find_delegated_roles_parent`). -/
structure RevokeState where
  descriptors : List (String × RoleDescriptor)
  versions : List (String × Nat)
  parents : String → String

def MAIN_ROLES : List String := ["root", "targets", "snapshot", "timestamp"]

/-- Model of `_role_obj(role)` as revocation uses it (roles queried by the theorems
below always exist in the store). -/
def getDescriptor (st : RevokeState) (role : String) : RoleDescriptor :=
  match st.descriptors.find? (fun p => p.1 == role) with
  | some p => p.2
  | none => ⟨[], 0⟩

def lookupVersion (st : RevokeState) (role : String) : Option Nat :=
  (st.versions.find? (fun p => p.1 == role)).map (fun p => p.2)

/-- The first test of `_check_if_can_remove`:
`len(role_obj.keyids) - 1 < role_obj.threshold` (Python integers). -/
def belowThreshold (st : RevokeState) (role : String) : Bool :=
  ((getDescriptor st role).keyids.length : Int) - 1
    < ((getDescriptor st role).threshold : Int)

/-- Model of `root.revoke_key(keyid, role)` and `parent_role.revoke_key(...)`: remove
the key-id from the named role's descriptor. -/
def removeKeyFromDescriptor (descs : List (String × RoleDescriptor))
    (role keyId : String) : List (String × RoleDescriptor) :=
  descs.map (fun p =>
    if p.1 == role then (p.1, ⟨p.2.keyids.erase keyId, p.2.threshold⟩) else p)

/-- A successful edit of a role's metadata file ends in `close`, which
bumps that file's version by one. -/
def bumpVersion (vers : List (String × Nat)) (role : String) :
    List (String × Nat) :=
  vers.map (fun p => if p.1 == role then (p.1, p.2 + 1) else p)

/-- Grouping `roles_by_parents`: a `defaultdict(list)` grouping the delegated roles
by `find_delegated_roles_parent`, in first-seen parent order. -/
def groupByParents (parents : String → String) (rolesList : List String) :
    List (String × List String) :=
  rolesList.foldl (fun acc r => appendAssoc acc (parents r) r) []

structure RevokeResult where
  removedFromRoles : List String
  notAddedRoles : List String
  lessThanThresholdRoles : List String
  post : RevokeState

/-- Model of `revoke_metadata_key(roles_signers, roles, key_id)`.  Classification
(`_check_if_can_remove`, evaluated in two passes — main roles first, then
delegated — over `roles` in order): a role whose
`len(keyids) - 1 < threshold` goes to `less_than_threshold_roles`;
otherwise a role missing the key goes to `not_added_roles`; the remaining
roles are revoked.  Main roles are revoked under one `edit_root` (root's
file bumped once when any main role is revoked), delegated ones under one
edit per parent.  If anything was revoked: `targets` is force-resigned
when it had the key revoked but was not itself a parent being edited, and
`do_snapshot()` / `do_timestamp()` re-sign snapshot then timestamp through
the edit protocol, bumping each by one (the tracked infos always changed
after an edit).  The signer-cache update is irrelevant to versions and
descriptors and is omitted. -/
def revokeMetadataKey (st : RevokeState) (roles : List String)
    (keyId : String) : RevokeResult :=
  let belowMain := roles.filter
    (fun r => MAIN_ROLES.contains r && belowThreshold st r)
  let notPresentMain := roles.filter
    (fun r => MAIN_ROLES.contains r && !belowThreshold st r
      && !(getDescriptor st r).keyids.contains keyId)
  let mainRoles := roles.filter
    (fun r => MAIN_ROLES.contains r && !belowThreshold st r
      && (getDescriptor st r).keyids.contains keyId)
  let descs1 := mainRoles.foldl
    (fun d r => removeKeyFromDescriptor d r keyId) st.descriptors
  let vers1 := if mainRoles.isEmpty then st.versions
    else bumpVersion st.versions "root"
  let belowDeleg := roles.filter
    (fun r => !MAIN_ROLES.contains r && belowThreshold st r)
  let notPresentDeleg := roles.filter
    (fun r => !MAIN_ROLES.contains r && !belowThreshold st r
      && !(getDescriptor st r).keyids.contains keyId)
  let delegatedRoles := roles.filter
    (fun r => !MAIN_ROLES.contains r && !belowThreshold st r
      && (getDescriptor st r).keyids.contains keyId)
  let rbp := groupByParents st.parents delegatedRoles
  let descs2 := rbp.foldl
    (fun d pr => pr.2.foldl (fun d2 r => removeKeyFromDescriptor d2 r keyId) d)
    descs1
  let vers2 := rbp.foldl (fun v pr => bumpVersion v pr.1) vers1
  let removedFromRoles := mainRoles ++ (rbp.map (fun pr => pr.2)).flatten
  let vers3 :=
    if removedFromRoles.isEmpty then vers2
    else
      let versTargets :=
        if removedFromRoles.contains "targets"
            && !(rbp.find? (fun pr => pr.1 == "targets")).isSome then
          bumpVersion vers2 "targets"
        else vers2
      bumpVersion (bumpVersion versTargets "snapshot") "timestamp"
  ⟨removedFromRoles, notPresentMain ++ notPresentDeleg,
    belowMain ++ belowDeleg, ⟨descs2, vers3, st.parents⟩⟩

/-- C7's scenario: revoking `k` from both `root` (one key, threshold 1 —
refused) and `targets` (two keys, threshold 1 — revoked). -/
def revokeStateCx : RevokeState :=
  ⟨[("root", ⟨["k"], 1⟩), ("targets", ⟨["k", "k2"], 1⟩),
      ("snapshot", ⟨["s"], 1⟩), ("timestamp", ⟨["t"], 1⟩)],
    [("root", 1), ("targets", 1), ("snapshot", 1), ("timestamp", 1)],
    fun _ => "targets"⟩

/-! ## Expiration service (`set_metadata_expiration_date`,
lines 1148–1183) -/

/-- Dictionary `expiration_intervals` plus the `KeyError → targets` fallback for
delegated roles. -/
def expirationInterval (role : String) : Nat :=
  if role == "root" then 365
  else if role == "targets" then 90
  else if role == "snapshot" then 7
  else if role == "timestamp" then 1
  else 90

set_option linter.unusedVariables false in
/-- The expiry computation of `set_metadata_expiration_date` inside the
`with self.edit(role_name)` block.  Dates count days from an arbitrary
epoch; `now` is the value of `datetime.now(timezone.utc)` at the
assignment.  The block's first statement,
`start_date = datetime.now(timezone.utc)`, unconditionally overwrites the
caller-supplied `start_date` parameter; `timedelta(interval)` is
`interval` days. -/
def setMetadataExpirationDate (now : Nat) (roleName : String)
    (startDate : Option Nat) (interval : Option Nat) : Nat :=
  let startDate := now
  let interval :=
    match interval with
    | some i => i
    | none => expirationInterval roleName
  startDate + interval

/-! ## Drift reconciliation (`get_all_target_files_state`, lines 543–579,
and `get_target_file_hashes`, lines 735–746) -/

/-- A signed target entry: its hash dictionary and optional custom data. -/
structure TargetEntry where
  hashes : List (String × String)
  custom : Option String
deriving DecidableEq, Repr

/-- Signed targets per role: role name → (target path → entry). -/
abbrev SignedTargets := List (String × List (String × TargetEntry))

/-- Model of `get_targets_of_role` (a role with no recorded targets has an empty
targets dictionary). -/
def getTargetsOfRole (signedTargets : SignedTargets) (role : String) :
    List (String × TargetEntry) :=
  match signedTargets.find? (fun p => p.1 == role) with
  | some p => p.2
  | none => []

/-- Model of `get_all_targets_roles`: stack traversal from `targets` collecting the
names of every targets-family role (same stack discipline and fuel policy
as `mapLoop`). -/
def allTargetsRolesLoop (s : Store) :
    Nat → List String → List String → List String
  | 0, _, acc => acc
  | _ + 1, [], acc => acc
  | fuel + 1, r :: rs, acc =>
    let role := (r :: rs).getLast (List.cons_ne_nil r rs)
    let rest := (r :: rs).dropLast
    allTargetsRolesLoop s fuel (rest ++ getDelegationsOfRole s role)
      (acc ++ [role])

def getAllTargetsRoles (s : Store) (fuel : Nat) : List String :=
  allTargetsRolesLoop s fuel ["targets"] []

/-- Model of `get_target_file_hashes(target_path)`: resolve the path's signing role,
look the path up in that role's signed targets — the `KeyError` for a path
the role never signed becomes `TAFError("Target ... does not exist")` —
then return the `sha256` entry of its hash dictionary. -/
def getTargetFileHashes (s : Store) (fuel : Nat)
    (signedTargets : SignedTargets) (targetPath : String) :
    Except String String :=
  match getRoleFromTargetPaths s fuel [targetPath] with
  | none => Except.error "no role"
  | some role =>
    match (getTargetsOfRole signedTargets role).find?
        (fun p => p.1 == targetPath) with
    | none => Except.error ("Target " ++ targetPath ++ " does not exist")
    | some entry =>
      match entry.2.hashes.find? (fun h => h.1 == "sha256") with
      | none => Except.error "Invalid hashing algorithm sha256"
      | some kv => Except.ok kv.2

/-- Model of `get_target_file_custom_data(target_path)` (same `KeyError → TAFError`
behaviour). -/
def getTargetFileCustomData (s : Store) (fuel : Nat)
    (signedTargets : SignedTargets) (targetPath : String) :
    Except String (Option String) :=
  match getRoleFromTargetPaths s fuel [targetPath] with
  | none => Except.error "no role"
  | some role =>
    match (getTargetsOfRole signedTargets role).find?
        (fun p => p.1 == targetPath) with
    | none => Except.error ("Target " ++ targetPath ++ " does not exist")
    | some entry => Except.ok entry.2.custom

structure AddedFileData where
  target : String
  custom : Option String
deriving DecidableEq, Repr

/-- The `for file_name in fs_target_files:` loop of
`get_all_target_files_state`.  On-disk files are `(name, content)` pairs
and `sha256` abstracts `get_file_details`'s digest of a file's content.
The comparison `hashes.get("sha256") != self.get_target_file_hashes(...)`
calls `get_target_file_hashes` unguarded, so the `TAFError` it raises for
an on-disk file its role never signed propagates out of the loop. -/
def addedTargetFilesLoop (s : Store) (fuel : Nat)
    (signedTargets : SignedTargets) (sha256 : String → String) :
    List (String × String) → Except String (List (String × AddedFileData))
  | [] => Except.ok []
  | (name, content) :: restFiles =>
    match getTargetFileHashes s fuel signedTargets name with
    | Except.error e => Except.error e
    | Except.ok signedHash =>
      if sha256 content ≠ signedHash then
        match getTargetFileCustomData s fuel signedTargets name with
        | Except.error e => Except.error e
        | Except.ok custom =>
          match addedTargetFilesLoop s fuel signedTargets sha256 restFiles with
          | Except.error e => Except.error e
          | Except.ok rest => Except.ok ((name, ⟨content, custom⟩) :: rest)
      else addedTargetFilesLoop s fuel signedTargets sha256 restFiles

/-- Model of `get_signed_target_files()`: the union over every targets-family role
of the paths it signs. -/
def signedTargetFiles (signedTargets : SignedTargets)
    (roles : List String) : List String :=
  (roles.map (fun r => (getTargetsOfRole signedTargets r).map Prod.fst)).flatten

/-- Model of `get_all_target_files_state()`: the added/modified entries from the
file loop (a raised `TAFError` propagates), and, as `removed`, every signed
target path with no on-disk file. -/
def getAllTargetFilesState (s : Store) (fuel : Nat)
    (fsFiles : List (String × String)) (signedTargets : SignedTargets)
    (sha256 : String → String) :
    Except String (List (String × AddedFileData) × List String) :=
  match addedTargetFilesLoop s fuel signedTargets sha256 fsFiles with
  | Except.error e => Except.error e
  | Except.ok added =>
    let fsNames := fsFiles.map Prod.fst
    let removed :=
      ((signedTargetFiles signedTargets (getAllTargetsRoles s fuel)).filter
        (fun f => ¬ fsNames.contains f)).dedup
    Except.ok (added, removed)

/-! ## Basic lemmas about the resolver -/

theorem foldl_const_acc {α β : Type} (l : List α) (m : β) :
    l.foldl (fun acc _ => acc) m = m := by
  induction l generalizing m with
  | nil => rfl
  | cons x xs ih => rw [List.foldl_cons]; exact ih m

theorem applyRolePatterns_nil_files (s : Store) (role : String)
    (m : List (String × String)) : applyRolePatterns s role [] m = m := by
  unfold applyRolePatterns
  simp only [List.foldl_nil]
  exact foldl_const_acc _ m

theorem mapLoop_nil_files (s : Store) (fuel : Nat) (stack : List String)
    (m : List (String × String)) : mapLoop s [] fuel stack m = m := by
  induction fuel generalizing stack m with
  | zero => rfl
  | succ n ih =>
    cases stack with
    | nil => rfl
    | cons r rs => simp [mapLoop, applyRolePatterns_nil_files, ih]

theorem updateAssoc_map_fst (m : List (String × String)) (k v : String) :
    (updateAssoc m k v).map Prod.fst = m.map Prod.fst := by
  unfold updateAssoc
  rw [List.map_map]
  apply List.map_congr_left
  intro a _
  by_cases h : a.1 = k <;> simp [h]

theorem foldl_preserves_map_fst {α : Type}
    (g : List (String × String) → α → List (String × String))
    (hg : ∀ m a, (g m a).map Prod.fst = m.map Prod.fst) (l : List α)
    (m : List (String × String)) :
    (l.foldl g m).map Prod.fst = m.map Prod.fst := by
  induction l generalizing m with
  | nil => rfl
  | cons x xs ih => rw [List.foldl_cons, ih, hg]

theorem applyRolePatterns_map_fst (s : Store) (role : String)
    (files : List String) (m : List (String × String)) :
    (applyRolePatterns s role files m).map Prod.fst = m.map Prod.fst := by
  unfold applyRolePatterns
  apply foldl_preserves_map_fst
  intro m1 pat
  apply foldl_preserves_map_fst
  intro m2 f
  by_cases h : fnmatch (lstripSep f) (lstripSep pat) <;>
    simp [h, updateAssoc_map_fst]

theorem mapLoop_map_fst (s : Store) (files : List String) (fuel : Nat)
    (stack : List String) (m : List (String × String)) :
    (mapLoop s files fuel stack m).map Prod.fst = m.map Prod.fst := by
  induction fuel generalizing stack m with
  | zero => rfl
  | succ n ih =>
    cases stack with
    | nil => rfl
    | cons r rs => rw [mapLoop, ih, applyRolePatterns_map_fst]

theorem mapSigningRoles_map_fst (s : Store) (fuel : Nat)
    (files : List String) :
    (mapSigningRoles s fuel files).map Prod.fst = files := by
  unfold mapSigningRoles
  rw [mapLoop_map_fst]
  induction files with
  | nil => rfl
  | cons f fs ih => simp only [List.map_cons]; rw [ih]

theorem foldl_filter_nil (l : List String) :
    l.foldl (fun acc x => acc.filter (fun c => c == x)) [] = [] := by
  induction l with
  | nil => rfl
  | cons x xs ih => simpa using ih

theorem foldl_filter_singleton (r : String) (l : List String) :
    l.foldl (fun acc x => acc.filter (fun c => c == x)) [r]
      = if l.all (fun x => x == r) then [r] else [] := by
  induction l with
  | nil => rfl
  | cons x xs ih =>
    rw [List.foldl_cons, List.all_cons]
    by_cases h : x = r
    · subst h
      have hf : List.filter (fun c => c == x) [x] = [x] := by simp
      rw [hf, ih]
      simp
    · have hbx : (x == r) = false := beq_false_of_ne h
      have hrx : (r == x) = false := beq_false_of_ne (Ne.symm h)
      have hf : List.filter (fun c => c == x) [r] = [] := by simp [hrx]
      rw [hf, foldl_filter_nil]
      simp [hbx]

/-- Closed form for `get_role_from_target_paths` once the mapping is known. -/
theorem getRoleFromTargetPaths_spec (s : Store) (fuel : Nat)
    (paths : List String) (q0 : String × String) (qs : List (String × String))
    (hm : mapSigningRoles s fuel paths = q0 :: qs) :
    getRoleFromTargetPaths s fuel paths =
      (if (qs.map (fun p => p.2)).all (fun x => x == q0.2) then some q0.2
       else none) := by
  unfold getRoleFromTargetPaths
  rw [hm]
  simp only [List.map_cons]
  rw [foldl_filter_singleton]
  cases hall : (qs.map (fun p => p.2)).all (fun x => x == q0.2) <;>
    simp [hall]

/-! ## Claims C6 and C10 -/

/-- C6. For every non-empty set of target paths,
`get_role_from_target_paths` returns a single role `r` if and only if every
path in the set maps (via `map_signing_roles`) to `r`; when two paths map to
different roles it returns no role (`None`). -/
theorem getRoleFromTargetPaths_unique_common_role
    (s : Store) (fuel : Nat) (paths : List String) (h : paths ≠ []) :
    (∀ r, getRoleFromTargetPaths s fuel paths = some r ↔
        ∀ q ∈ mapSigningRoles s fuel paths, q.2 = r) ∧
    ((∃ q1 ∈ mapSigningRoles s fuel paths,
        ∃ q2 ∈ mapSigningRoles s fuel paths, q1.2 ≠ q2.2) →
      getRoleFromTargetPaths s fuel paths = none) := by
  cases hm : mapSigningRoles s fuel paths with
  | nil =>
    exfalso
    apply h
    have hfst := mapSigningRoles_map_fst s fuel paths
    rw [hm] at hfst
    exact hfst.symm
  | cons q0 qs =>
    rw [getRoleFromTargetPaths_spec s fuel paths q0 qs hm]
    constructor
    · intro r
      cases hall : (qs.map (fun p => p.2)).all (fun x => x == q0.2) with
      | true =>
        have hqs : ∀ q ∈ qs, q.2 = q0.2 := by
          intro q hq
          have := List.all_eq_true.mp hall q.2 (List.mem_map.mpr ⟨q, hq, rfl⟩)
          exact beq_iff_eq.mp this
        rw [if_pos rfl]
        constructor
        · intro hr
          have hr' : q0.2 = r := Option.some.inj hr
          intro q hq
          rcases List.mem_cons.mp hq with rfl | hq'
          · exact hr'
          · rw [hqs q hq', hr']
        · intro hall'
          rw [hall' q0 (List.mem_cons_self q0 qs)]
      | false =>
        rw [if_neg (by decide)]
        constructor
        · intro hr; exact absurd hr (by simp)
        · intro hall'
          exfalso
          obtain ⟨x, hx, hxne⟩ := List.all_eq_false.mp hall
          obtain ⟨q, hq, rfl⟩ := List.mem_map.mp hx
          have h1 : q.2 = r := hall' q (List.mem_cons_of_mem q0 hq)
          have h2 : q0.2 = r := hall' q0 (List.mem_cons_self q0 qs)
          exact hxne (by rw [h1, h2]; exact beq_self_eq_true r)
    · rintro ⟨q1, hq1, q2, hq2, hne⟩
      cases hall : (qs.map (fun p => p.2)).all (fun x => x == q0.2) with
      | true =>
        exfalso
        have hqs : ∀ q ∈ q0 :: qs, q.2 = q0.2 := by
          intro q hq
          rcases List.mem_cons.mp hq with rfl | hq'
          · rfl
          · exact beq_iff_eq.mp
              (List.all_eq_true.mp hall q.2 (List.mem_map.mpr ⟨q, hq', rfl⟩))
        exact hne ((hqs q1 hq1).trans (hqs q2 hq2).symm)
      | false => rw [if_neg (by decide)]

/-- Witness for C6 at a concrete input: with no delegations both paths map
to `"targets"`, and that common role is returned. -/
theorem getRoleFromTargetPaths_unique_common_role_witness :
    getRoleFromTargetPaths [] 1 ["a", "b"] = some "targets" :=
  ((getRoleFromTargetPaths_unique_common_role [] 1 ["a", "b"]
      (by decide)).1 "targets").mpr (by decide)

/-- C10. Called with an empty collection of target paths,
`get_role_from_target_paths` returns no role — not the default role
`"targets"` — and does not raise: `reduce` over the empty role list raises
`TypeError`, which the function catches and converts to `None`. -/
theorem getRoleFromTargetPaths_empty_none (s : Store) (fuel : Nat) :
    getRoleFromTargetPaths s fuel [] = none := by
  unfold getRoleFromTargetPaths mapSigningRoles
  rw [show (([] : List String).map (fun f => (f, "targets"))) = [] from rfl,
    mapLoop_nil_files]
  rfl

/-! ## Claim C4: `*` in `fnmatch` crosses path components -/

theorem starMatch_empty_pattern (cs : List Char) :
    starMatch (fnmatchList []) cs = true := by
  induction cs with
  | nil => rfl
  | cons c cs ih => simp [starMatch, ih]

theorem fnmatchList_star (cs : List Char) : fnmatchList ['*'] cs = true := by
  show starMatch (fnmatchList []) cs = true
  exact starMatch_empty_pattern cs

theorem fnmatchList_lit (p : Char) (ps : List Char) (c : Char)
    (cs : List Char) (hstar : p ≠ '*') (hq : p ≠ '?') :
    fnmatchList (p :: ps) (c :: cs) = ((p == c) && fnmatchList ps cs) := by
  rw [fnmatchList, if_neg hstar, if_neg hq]

theorem fnmatchList_append_star (lit : List Char) (cs : List Char)
    (hl : ∀ c ∈ lit, c ≠ '*' ∧ c ≠ '?') :
    fnmatchList (lit ++ ['*']) (lit ++ cs) = true := by
  induction lit with
  | nil => exact fnmatchList_star cs
  | cons p ps ih =>
    have hp := hl p (List.mem_cons_self p ps)
    rw [List.cons_append, List.cons_append,
      fnmatchList_lit p (ps ++ ['*']) p (ps ++ cs) hp.1 hp.2,
      beq_self_eq_true, Bool.true_and]
    exact ih (fun c hc => hl c (List.mem_cons_of_mem p hc))

theorem fnmatch_dir1_star (rest : String) :
    fnmatch ("dir1/" ++ rest) "dir1/*" = true := by
  show fnmatchList ("dir1/*".data) (("dir1/" ++ rest).data) = true
  rw [String.data_append,
    show "dir1/*".data = ['d', 'i', 'r', '1', '/'] ++ ['*'] from rfl,
    show "dir1/".data = ['d', 'i', 'r', '1', '/'] from rfl]
  exact fnmatchList_append_star ['d', 'i', 'r', '1', '/'] rest.data (by decide)

theorem lstripSep_dir1 (rest : String) :
    lstripSep ("dir1/" ++ rest) = "dir1/" ++ rest := by
  apply String.ext
  show (("dir1/" ++ rest).data).dropWhile (fun c => c == '/')
      = ("dir1/" ++ rest).data
  rw [String.data_append, show "dir1/".data = 'd' :: "ir1/".data from rfl,
    List.cons_append, List.dropWhile_cons, if_neg (by decide)]

theorem lstripSep_leading_sep (s : String) :
    lstripSep ("/" ++ s) = lstripSep s := by
  apply String.ext
  show (("/" ++ s).data).dropWhile (fun c => c == '/')
      = s.data.dropWhile (fun c => c == '/')
  rw [String.data_append, show "/".data = ['/'] from rfl, List.cons_append,
    List.nil_append, List.dropWhile_cons, if_pos (by decide)]

theorem updateAssoc_single (k a v : String) :
    updateAssoc [(k, a)] k v = [(k, v)] := by
  simp [updateAssoc]

theorem mapSigningRoles_dir1 (rest : String) :
    mapSigningRoles storeDir1 3 ["dir1/" ++ rest]
      = [("dir1/" ++ rest, "X")] := by
  have hfn := fnmatch_dir1_star rest
  have hl := lstripSep_dir1 rest
  have h1 : applyRolePatterns storeDir1 "targets" ["dir1/" ++ rest]
      [("dir1/" ++ rest, "targets")] = [("dir1/" ++ rest, "targets")] := by
    show (if fnmatch (lstripSep ("dir1/" ++ rest)) (lstripSep "*") then
        updateAssoc [("dir1/" ++ rest, "targets")] ("dir1/" ++ rest) "targets"
      else [("dir1/" ++ rest, "targets")]) = [("dir1/" ++ rest, "targets")]
    split
    · exact updateAssoc_single ("dir1/" ++ rest) "targets" "targets"
    · rfl
  have h2 : applyRolePatterns storeDir1 "X" ["dir1/" ++ rest]
      [("dir1/" ++ rest, "targets")] = [("dir1/" ++ rest, "X")] := by
    show (if fnmatch (lstripSep ("dir1/" ++ rest)) (lstripSep "dir1/*") then
        updateAssoc [("dir1/" ++ rest, "targets")] ("dir1/" ++ rest) "X"
      else [("dir1/" ++ rest, "targets")]) = [("dir1/" ++ rest, "X")]
    rw [hl, show lstripSep "dir1/*" = "dir1/*" from rfl, if_pos hfn]
    exact updateAssoc_single ("dir1/" ++ rest) "targets" "X"
  calc mapSigningRoles storeDir1 3 ["dir1/" ++ rest]
      = mapLoop storeDir1 ["dir1/" ++ rest] 2 ["X"]
          (applyRolePatterns storeDir1 "targets" ["dir1/" ++ rest]
            [("dir1/" ++ rest, "targets")]) := rfl
    _ = mapLoop storeDir1 ["dir1/" ++ rest] 2 ["X"]
          [("dir1/" ++ rest, "targets")] := by rw [h1]
    _ = mapLoop storeDir1 ["dir1/" ++ rest] 1 []
          (applyRolePatterns storeDir1 "X" ["dir1/" ++ rest]
            [("dir1/" ++ rest, "targets")]) := rfl
    _ = [("dir1/" ++ rest, "X")] := by rw [h2]; rfl

/-- C4 counterexample.  The claim states that in `map_signing_roles`
a `*` matches exactly one path component, so the pattern `dir1/*` must not
match `dir1/a/b` (which would then stay mapped to `targets`).  The code
uses Python `fnmatch`, for which the separator is not special: `dir1/*`
does match `dir1/a/b`, and the path is mapped to the delegated role `X`. -/
theorem star_single_component_cx :
    fnmatch "dir1/a/b" "dir1/*" = true ∧
    mapSigningRoles storeDir1 3 ["dir1/a/b"] = [("dir1/a/b", "X")] ∧
    mapSigningRoles storeDir1 3 ["dir1/a/b"] ≠ [("dir1/a/b", "targets")] := by
  decide

/-- C4, amended.  In target-path matching, patterns are matched with
Python `fnmatch` semantics, where the path separator is not special: `*`
(and hence also `**`) matches ANY character sequence, separators included,
and the leading separator is stripped from both path and pattern before
matching.  Consequently, for a delegated role with pattern `dir1/*`, every
path `dir1/<anything>` — `dir1/a/b` included — IS matched by that pattern
and mapped to that role. -/
theorem star_crosses_components (rest : String) :
    fnmatch ("dir1/" ++ rest) "dir1/*" = true ∧
    mapSigningRoles storeDir1 3 ["dir1/" ++ rest]
      = [("dir1/" ++ rest, "X")] ∧
    (∀ s : String, lstripSep ("/" ++ s) = lstripSep s) :=
  ⟨fnmatch_dir1_star rest, mapSigningRoles_dir1 rest, lstripSep_leading_sep⟩

/-! ## Claim C5: the `terminating` flag -/

theorem find?_setTerminating (s : Store) (b : Bool) (n : String) :
    List.find? (fun q => q.1 == n) (setTerminating s b)
      = Option.map (fun q => (q.1, { q.2 with terminating := b }))
          (List.find? (fun q => q.1 == n) s) := by
  induction s with
  | nil => rfl
  | cons p ps ih =>
    obtain ⟨name, d⟩ := p
    by_cases h : (name == n) = true
    · simp [setTerminating, List.find?_cons, h]
    · have h' : (name == n) = false := by
        cases hx : (name == n) <;> simp_all
      simp [setTerminating, List.find?_cons, h', ih]
      rfl

theorem lookupRole_setTerminating (s : Store) (b : Bool) (n : String) :
    lookupRole (setTerminating s b) n
      = (lookupRole s n).map (fun d => { d with terminating := b }) := by
  unfold lookupRole
  rw [find?_setTerminating]
  cases List.find? (fun q => q.1 == n) s <;> rfl

theorem getRolePaths_setTerminating (s : Store) (b : Bool) (r : String) :
    getRolePaths (setTerminating s b) r = getRolePaths s r := by
  unfold getRolePaths
  rw [lookupRole_setTerminating]
  cases lookupRole s r <;> rfl

theorem getDelegationsOfRole_setTerminating (s : Store) (b : Bool)
    (r : String) :
    getDelegationsOfRole (setTerminating s b) r = getDelegationsOfRole s r := by
  unfold getDelegationsOfRole
  rw [lookupRole_setTerminating]
  cases lookupRole s r <;> rfl

theorem applyRolePatterns_setTerminating (s : Store) (b : Bool)
    (role : String) (files : List String) (m : List (String × String)) :
    applyRolePatterns (setTerminating s b) role files m
      = applyRolePatterns s role files m := by
  unfold applyRolePatterns
  rw [getRolePaths_setTerminating]

theorem mapLoop_setTerminating (s : Store) (b : Bool) (files : List String)
    (fuel : Nat) (stack : List String) (m : List (String × String)) :
    mapLoop (setTerminating s b) files fuel stack m
      = mapLoop s files fuel stack m := by
  induction fuel generalizing stack m with
  | zero => rfl
  | succ n ih =>
    cases stack with
    | nil => rfl
    | cons r rs =>
      rw [mapLoop, mapLoop, applyRolePatterns_setTerminating,
        getDelegationsOfRole_setTerminating, ih]

/-- C5 counterexample.  Role `X` has `terminating = true` and its
pattern `a/*` matches the path `a/b`; the claim says no role visited after
`X` may overwrite that path's mapping, so it must stay mapped to `X`.  But
`map_signing_roles` never reads the flag: the child role `Y`, visited after
`X`, overwrites the mapping to `Y`. -/
theorem terminating_prunes_traversal_cx :
    (lookupRole storeTerm "X").map RoleData.terminating = some true ∧
    fnmatch "a/b" "a/*" = true ∧
    mapSigningRoles storeTerm 4 ["a/b"] = [("a/b", "Y")] := by
  decide

/-- C5, amended.  The `terminating` flag has no effect on
`map_signing_roles`: the function never reads it, so the computed mapping
is identical for every assignment of terminating flags; traversal always
continues into and past a matching terminating role, and later-visited
matching roles overwrite the mapping even for the paths it matched. -/
theorem mapSigningRoles_terminating_irrelevant (s : Store) (b : Bool)
    (fuel : Nat) (files : List String) :
    mapSigningRoles (setTerminating s b) fuel files
      = mapSigningRoles s fuel files := by
  unfold mapSigningRoles
  rw [mapLoop_setTerminating]

/-! ## Claims C1 and C2: the close protocol -/

/-- C1. For every role — root, targets, snapshot, timestamp or
delegated — and every successful edit transaction finished via `close`,
the role's version after the edit equals its version before plus exactly
one (`md.signed.version += 1`).  The initial creation writes enter `close`
at version 0 and are the `md.signed.version = 0` instance. -/
theorem close_bumps_version_by_one (st : RepoState) (role : String)
    (md : Metadata) :
    ((close st role md).2).signed.version = md.signed.version + 1 := rfl

/-- C2 counterexample.  `close` never checks the role's threshold: it
signs with exactly the signers present in the role's signer cache.  With an
empty cache for the role (as e.g. `create` leaves it for hardware-key
roles, for which no signer is loaded), `close` succeeds and writes zero
signatures — fewer than the descriptor's threshold of 1. -/
theorem close_below_threshold_cx :
    validSignatureCount
        (close ⟨fun _ => [], 1, [], []⟩ "targets" ⟨⟨1, "body"⟩, []⟩).2
        ⟨["k1"], 1⟩
      < (⟨["k1"], 1⟩ : RoleDescriptor).threshold := by decide

/-- C2, amended.  `close` writes exactly one signature per signer in
the role's signer cache, each of which verifies over the new signed
content; hence whenever the cache holds at least `threshold` signers whose
key-ids all belong to the role's descriptor, the written metadata carries
at least `threshold` valid signatures.  `close` itself enforces no
minimum: with fewer cached signers the role file is written with fewer
signatures than the threshold (see the counterexample). -/
theorem close_meets_threshold_with_enough_signers (st : RepoState)
    (role : String) (md : Metadata) (descr : RoleDescriptor)
    (hsub : ∀ s ∈ st.signerCache role, s.keyid ∈ descr.keyids)
    (hlen : descr.threshold ≤ (st.signerCache role).length) :
    ((close st role md).2).signatures.length
      = (st.signerCache role).length ∧
    descr.threshold ≤ validSignatureCount (close st role md).2 descr := by
  constructor
  · exact List.length_map _ _
  · have hall : ∀ sig ∈ ((close st role md).2).signatures,
        decide (sig.keyid ∈ descr.keyids ∧
          sig.signedOver = ((close st role md).2).signed) = true := by
      intro sig hsig
      have hsig' : sig ∈ (st.signerCache role).map
          (fun s => signPayload s
            { md.signed with version := md.signed.version + 1 }) := hsig
      obtain ⟨s, hs, rfl⟩ := List.mem_map.mp hsig'
      exact decide_eq_true ⟨hsub s hs, rfl⟩
    unfold validSignatureCount
    rw [List.filter_eq_self.mpr hall]
    calc descr.threshold ≤ (st.signerCache role).length := hlen
      _ = ((close st role md).2).signatures.length :=
          (List.length_map _ _).symm

/-- Witness for the amended C2 at a concrete input: one cached signer whose
key-id is in the descriptor, threshold 1. -/
theorem close_meets_threshold_with_enough_signers_witness :
    ((close ⟨fun _ => [⟨"k1"⟩], 1, [], []⟩ "targets"
        ⟨⟨0, "b"⟩, []⟩).2).signatures.length
      = ((⟨fun _ => [⟨"k1"⟩], 1, [], []⟩ : RepoState).signerCache
          "targets").length ∧
    (⟨["k1"], 1⟩ : RoleDescriptor).threshold ≤
      validSignatureCount
        (close ⟨fun _ => [⟨"k1"⟩], 1, [], []⟩ "targets" ⟨⟨0, "b"⟩, []⟩).2
        ⟨["k1"], 1⟩ :=
  close_meets_threshold_with_enough_signers
    ⟨fun _ => [⟨"k1"⟩], 1, [], []⟩ "targets" ⟨⟨0, "b"⟩, []⟩ ⟨["k1"], 1⟩
    (by decide) (by decide)

/-! ## Claim C3: delegation keys at creation -/

/-- C3, code bug.  The claim — and `create`'s evident intent
("attach its keys to the nearest parent's `delegations.keys`") — requires
every key-id referenced by a delegated descriptor to appear in the keys
dictionary of the containing parent metadata.  But the second loop of
`create` builds `Delegations(..., keys=public_keys[role.name])` with the
loop variable `role` leaked from the FIRST loop, i.e. the last role the
iterator yielded: on a descriptor with delegated roles `A` (key `ka`) and
`B` (key `kb`) under `targets`, the parent's keys dictionary holds only
`kb`, while `A`'s descriptor references `ka`. -/
theorem create_delegations_missing_key_bug :
    buildTargetsDelegations rolesAB publicKeysAB
      = [("targets",
          ⟨["kb"],
            [⟨"A", 1, ["a/*"], false, ["ka"]⟩,
             ⟨"B", 1, ["b/*"], false, ["kb"]⟩]⟩)] ∧
    (∃ p ∈ buildTargetsDelegations rolesAB publicKeysAB,
      ∃ dr ∈ p.2.roles, ∃ kid ∈ dr.keyids, kid ∉ p.2.keys) := by decide

/-! ## Claim C8: expiration start date -/

/-- C8, code bug.  `set_metadata_expiration_date` documents `expires =
start_date + interval` for a caller-provided start date, and the claim
(with the spec) says so too — but the first statement of the edit block,
`start_date = datetime.now(timezone.utc)`, overwrites the argument: with
`now = 1000` (days) and an explicit `start_date = 0`, root's expiry becomes
`1000 + 365`, not `0 + 365`.  The default intervals themselves are as
claimed (root 365, targets 90, snapshot 7, timestamp 1, delegated roles
fall back to the targets interval). -/
theorem set_expiration_ignores_start_date_bug :
    setMetadataExpirationDate 1000 "root" (some 0) none = 1365 ∧
    setMetadataExpirationDate 1000 "root" (some 0) none ≠ 0 + 365 ∧
    (∀ startDate : Option Nat,
      setMetadataExpirationDate 1000 "root" startDate none = 1365) ∧
    expirationInterval "root" = 365 ∧ expirationInterval "targets" = 90 ∧
    expirationInterval "snapshot" = 7 ∧
    expirationInterval "timestamp" = 1 ∧
    expirationInterval "delegated_role" = 90 := by
  refine ⟨by decide, by decide, fun _ => rfl, by decide, by decide,
    by decide, by decide, by decide⟩

/-! ## Claim C9: drift reconciliation -/

/-- C9, code bug.  The claim (and the docstring of
`get_all_target_files_state`, whose `Raises:` section says `None`) requires
the query to return normally with a new on-disk file reported in
`added_or_modified`.  But the file loop compares
`hashes.get("sha256") != self.get_target_file_hashes(file_name)` unguarded,
and `get_target_file_hashes` raises `TAFError("Target ... does not exist")`
for any on-disk file its signing role never recorded — precisely the "new
file" case.  With one unsigned on-disk file `new.txt` the query raises
instead of returning; for modified-only and removed-only drift it returns
the claimed dictionaries. -/
theorem target_files_state_raises_on_new_file_bug :
    getAllTargetFilesState [] 1 [("new.txt", "hi")] [] (fun c => c)
      = Except.error "Target new.txt does not exist" ∧
    getAllTargetFilesState [] 1 [("a.txt", "new")]
        [("targets", [("a.txt", ⟨[("sha256", "old")], none⟩)])] (fun c => c)
      = Except.ok ([("a.txt", ⟨"new", none⟩)], []) ∧
    getAllTargetFilesState [] 1 []
        [("targets", [("gone.txt", ⟨[("sha256", "h")], none⟩)])] (fun c => c)
      = Except.ok ([], ["gone.txt"]) := ⟨rfl, rfl, rfl⟩

/-! ## Claim C7: the revocation threshold guard -/

theorem appendAssoc_mem_values {α : Type} (m : List (String × List α))
    (k : String) (v : α) (pr : String × List α)
    (hpr : pr ∈ appendAssoc m k v) (x : α) (hx : x ∈ pr.2) :
    (∃ q ∈ m, x ∈ q.2) ∨ x = v := by
  unfold appendAssoc at hpr
  by_cases hfind : (m.find? (fun p => p.1 == k)).isSome = true
  · rw [if_pos hfind] at hpr
    obtain ⟨q, hq, rfl⟩ := List.mem_map.mp hpr
    have hx' : x ∈ (if (q.1 == k) = true then (q.1, q.2 ++ [v]) else q).2 :=
      hx
    by_cases hk : (q.1 == k) = true
    · rw [if_pos hk] at hx'
      rcases List.mem_append.mp hx' with hxl | hxr
      · exact Or.inl ⟨q, hq, hxl⟩
      · exact Or.inr (List.mem_singleton.mp hxr)
    · rw [if_neg hk] at hx'
      exact Or.inl ⟨q, hq, hx'⟩
  · rw [if_neg hfind] at hpr
    rcases List.mem_append.mp hpr with hml | hmr
    · exact Or.inl ⟨pr, hml, hx⟩
    · have hpr' : pr = (k, [v]) := List.mem_singleton.mp hmr
      subst hpr'
      exact Or.inr (List.mem_singleton.mp hx)

theorem foldl_appendAssoc_mem (parents : String → String) (l : List String)
    (acc : List (String × List String)) (P : String → Prop)
    (hacc : ∀ pr ∈ acc, ∀ x ∈ pr.2, P x) (hl : ∀ r ∈ l, P r) :
    ∀ pr ∈ l.foldl (fun a r => appendAssoc a (parents r) r) acc,
      ∀ x ∈ pr.2, P x := by
  induction l generalizing acc with
  | nil => exact hacc
  | cons r rs ih =>
    rw [List.foldl_cons]
    apply ih
    · intro pr hpr x hx
      rcases appendAssoc_mem_values acc (parents r) r pr hpr x hx with
        ⟨q, hq, hxq⟩ | hxr
      · exact hacc q hq x hxq
      · rw [hxr]; exact hl r (List.mem_cons_self r rs)
    · intro r' hr'
      exact hl r' (List.mem_cons_of_mem r hr')

theorem groupByParents_mem (parents : String → String) (l : List String)
    (pr : String × List String) (hpr : pr ∈ groupByParents parents l)
    (x : String) (hx : x ∈ pr.2) : x ∈ l :=
  foldl_appendAssoc_mem parents l [] (fun y => y ∈ l)
    (fun q hq => absurd hq (List.not_mem_nil q)) (fun _ hr => hr)
    pr hpr x hx

theorem find?_map_preserving {α : Type} (l : List (String × α))
    (f : String × α → String × α) (role : String)
    (hf1 : ∀ p, (f p).1 = p.1) (hf2 : ∀ p, p.1 = role → f p = p) :
    List.find? (fun p => p.1 == role) (l.map f)
      = List.find? (fun p => p.1 == role) l := by
  induction l with
  | nil => rfl
  | cons p ps ih =>
    rw [List.map_cons, List.find?_cons, List.find?_cons]
    by_cases h : p.1 = role
    · have hb : (p.1 == role) = true := beq_iff_eq.mpr h
      have hfb : ((f p).1 == role) = true := by rw [hf1]; exact hb
      rw [hfb, hb, hf2 p h]
    · have hb : (p.1 == role) = false := beq_false_of_ne h
      have hfb : ((f p).1 == role) = false := by rw [hf1]; exact hb
      rw [hfb, hb]
      exact ih

theorem find?_removeKeyFromDescriptor (descs : List (String × RoleDescriptor))
    (r keyId role : String) (hne : role ≠ r) :
    List.find? (fun p => p.1 == role)
        (removeKeyFromDescriptor descs r keyId)
      = List.find? (fun p => p.1 == role) descs := by
  apply find?_map_preserving
  · intro p
    by_cases h : (p.1 == r) = true
    · rw [if_pos h]
    · rw [if_neg h]
  · intro p hp
    have hb : (p.1 == r) = false := beq_false_of_ne (by rw [hp]; exact hne)
    rw [if_neg (by simp [hb])]

theorem find?_foldl_removeKey (d0 : List (String × RoleDescriptor))
    (rs : List String) (keyId role : String) (h : role ∉ rs) :
    List.find? (fun p => p.1 == role)
        (rs.foldl (fun d r => removeKeyFromDescriptor d r keyId) d0)
      = List.find? (fun p => p.1 == role) d0 := by
  induction rs generalizing d0 with
  | nil => rfl
  | cons r rrs ih =>
    rw [List.foldl_cons]
    have hner : role ≠ r := by
      intro he
      exact h (by rw [he]; exact List.mem_cons_self r rrs)
    rw [ih _ (fun hmem => h (List.mem_cons_of_mem r hmem)),
      find?_removeKeyFromDescriptor d0 r keyId role hner]

theorem find?_foldl_groups_removeKey
    (d0 : List (String × RoleDescriptor))
    (groups : List (String × List String)) (keyId role : String)
    (h : ∀ pr ∈ groups, role ∉ pr.2) :
    List.find? (fun p => p.1 == role)
        (groups.foldl
          (fun d pr =>
            pr.2.foldl (fun d2 r => removeKeyFromDescriptor d2 r keyId) d)
          d0)
      = List.find? (fun p => p.1 == role) d0 := by
  induction groups generalizing d0 with
  | nil => rfl
  | cons g gs ih =>
    rw [List.foldl_cons,
      ih _ (fun pr hpr => h pr (List.mem_cons_of_mem g hpr)),
      find?_foldl_removeKey d0 g.2 keyId role (h g (List.mem_cons_self g gs))]

theorem getDescriptor_eq_of_find? (st1 st2 : RevokeState) (role : String)
    (h : List.find? (fun p => p.1 == role) st1.descriptors
      = List.find? (fun p => p.1 == role) st2.descriptors) :
    getDescriptor st1 role = getDescriptor st2 role := by
  unfold getDescriptor
  rw [h]

/-- When no requested role passes `_check_if_can_remove`, nothing is edited:
descriptors and versions are untouched. -/
theorem revokeMetadataKey_noop (st : RevokeState) (roles : List String)
    (keyId : String)
    (hmain : roles.filter (fun r => MAIN_ROLES.contains r
      && !belowThreshold st r
      && (getDescriptor st r).keyids.contains keyId) = [])
    (hdeleg : roles.filter (fun r => !MAIN_ROLES.contains r
      && !belowThreshold st r
      && (getDescriptor st r).keyids.contains keyId) = []) :
    (revokeMetadataKey st roles keyId).post.versions = st.versions ∧
    (revokeMetadataKey st roles keyId).post.descriptors = st.descriptors := by
  unfold revokeMetadataKey
  rw [hmain, hdeleg]
  exact ⟨rfl, rfl⟩

/-- C7 counterexample.  Revoking `k` from `["root", "targets"]` on
`revokeStateCx`: `root` (one key, threshold 1) is refused and classified
below-threshold, and keeps its key — but the same call revokes `k` from
`targets`, and main-role descriptors live in root's own metadata file, so
root's file is rewritten through `edit_root` and its version IS bumped
(1 → 2), contradicting the claim's "its on-disk metadata is unchanged and
its version is not bumped". -/
theorem revoke_below_threshold_version_cx :
    (revokeMetadataKey revokeStateCx ["root", "targets"]
        "k").lessThanThresholdRoles = ["root"] ∧
    (revokeMetadataKey revokeStateCx ["root", "targets"]
        "k").removedFromRoles = ["targets"] ∧
    getDescriptor
        (revokeMetadataKey revokeStateCx ["root", "targets"] "k").post "root"
      = ⟨["k"], 1⟩ ∧
    lookupVersion revokeStateCx "root" = some 1 ∧
    lookupVersion
        (revokeMetadataKey revokeStateCx ["root", "targets"] "k").post "root"
      = some 2 := by
  refine ⟨rfl, rfl, rfl, rfl, rfl⟩

/-- C7, amended.  A role for which `len(keyids) - 1 < threshold` is
refused: it is classified `below_threshold` (third result component), it is
not among the revoked roles, and its descriptor keeps all its keys.  When
the call revokes the key from no role at all, no descriptor changes and no
version is bumped.  (When the same call does revoke the key from other
roles, the files holding or tracking those roles — root for main-role
revocations, delegated parents, possibly targets, and snapshot and
timestamp through the cascade — are rewritten and version-bumped even when
they belong to a refused role; see the counterexample.) -/
theorem revoke_below_threshold_refused (st : RevokeState)
    (roles : List String) (keyId role : String) (hrole : role ∈ roles)
    (hbelow : belowThreshold st role = true) :
    role ∈ (revokeMetadataKey st roles keyId).lessThanThresholdRoles ∧
    role ∉ (revokeMetadataKey st roles keyId).removedFromRoles ∧
    getDescriptor (revokeMetadataKey st roles keyId).post role
      = getDescriptor st role ∧
    ((∀ r ∈ roles, belowThreshold st r = true
        ∨ (getDescriptor st r).keyids.contains keyId = false) →
      (revokeMetadataKey st roles keyId).post.versions = st.versions ∧
      (revokeMetadataKey st roles keyId).post.descriptors
        = st.descriptors) := by
  have hnotmain : role ∉ roles.filter (fun r => MAIN_ROLES.contains r
      && !belowThreshold st r
      && (getDescriptor st r).keyids.contains keyId) := by
    intro hmem
    have hp := (List.mem_filter.mp hmem).2
    rw [hbelow] at hp
    simp at hp
  have hnotdeleg : role ∉ roles.filter (fun r => !MAIN_ROLES.contains r
      && !belowThreshold st r
      && (getDescriptor st r).keyids.contains keyId) := by
    intro hmem
    have hp := (List.mem_filter.mp hmem).2
    rw [hbelow] at hp
    simp at hp
  have hgroups : ∀ pr ∈ groupByParents st.parents
      (roles.filter (fun r => !MAIN_ROLES.contains r
        && !belowThreshold st r
        && (getDescriptor st r).keyids.contains keyId)),
      role ∉ pr.2 := by
    intro pr hpr hrl
    exact hnotdeleg (groupByParents_mem st.parents _ pr hpr role hrl)
  refine ⟨?_, ?_, ?_, ?_⟩
  · show role ∈ roles.filter (fun r => MAIN_ROLES.contains r
        && belowThreshold st r)
      ++ roles.filter (fun r => !MAIN_ROLES.contains r
        && belowThreshold st r)
    cases hmain : MAIN_ROLES.contains role with
    | true =>
      exact List.mem_append_left _
        (List.mem_filter.mpr ⟨hrole, by rw [hmain, hbelow]; rfl⟩)
    | false =>
      exact List.mem_append_right _
        (List.mem_filter.mpr ⟨hrole, by rw [hmain, hbelow]; rfl⟩)
  · show role ∉ roles.filter (fun r => MAIN_ROLES.contains r
        && !belowThreshold st r
        && (getDescriptor st r).keyids.contains keyId)
      ++ ((groupByParents st.parents
          (roles.filter (fun r => !MAIN_ROLES.contains r
            && !belowThreshold st r
            && (getDescriptor st r).keyids.contains keyId))).map
        (fun pr => pr.2)).flatten
    intro hmem
    rcases List.mem_append.mp hmem with hm | hj
    · exact hnotmain hm
    · obtain ⟨l, hl, hroleL⟩ := List.mem_flatten.mp hj
      obtain ⟨pr, hpr, rfl⟩ := List.mem_map.mp hl
      exact hgroups pr hpr hroleL
  · apply getDescriptor_eq_of_find?
    show List.find? (fun p => p.1 == role)
        ((groupByParents st.parents
            (roles.filter (fun r => !MAIN_ROLES.contains r
              && !belowThreshold st r
              && (getDescriptor st r).keyids.contains keyId))).foldl
          (fun d pr =>
            pr.2.foldl (fun d2 r => removeKeyFromDescriptor d2 r keyId) d)
          ((roles.filter (fun r => MAIN_ROLES.contains r
              && !belowThreshold st r
              && (getDescriptor st r).keyids.contains keyId)).foldl
            (fun d r => removeKeyFromDescriptor d r keyId) st.descriptors))
      = List.find? (fun p => p.1 == role) st.descriptors
    rw [find?_foldl_groups_removeKey _ _ keyId role hgroups,
      find?_foldl_removeKey _ _ keyId role hnotmain]
  · intro hall
    apply revokeMetadataKey_noop
    · apply List.filter_eq_nil_iff.mpr
      intro r hr
      rcases hall r hr with h | h
      · simp [h]
      · have h' : keyId ∉ (getDescriptor st r).keyids := by simpa using h
        simp [h']
    · apply List.filter_eq_nil_iff.mpr
      intro r hr
      rcases hall r hr with h | h
      · simp [h]
      · have h' : keyId ∉ (getDescriptor st r).keyids := by simpa using h
        simp [h']

/-- Witness for the amended C7 at `revokeStateCx`: the refused role is
`root`. -/
theorem revoke_below_threshold_refused_witness :
    "root" ∈ (revokeMetadataKey revokeStateCx ["root", "targets"]
        "k").lessThanThresholdRoles ∧
    "root" ∉ (revokeMetadataKey revokeStateCx ["root", "targets"]
        "k").removedFromRoles ∧
    getDescriptor (revokeMetadataKey revokeStateCx ["root", "targets"]
        "k").post "root"
      = getDescriptor revokeStateCx "root" ∧
    ((∀ r ∈ ["root", "targets"],
        belowThreshold revokeStateCx r = true
          ∨ (getDescriptor revokeStateCx r).keyids.contains "k" = false) →
      (revokeMetadataKey revokeStateCx ["root", "targets"]
          "k").post.versions = revokeStateCx.versions ∧
      (revokeMetadataKey revokeStateCx ["root", "targets"]
          "k").post.descriptors = revokeStateCx.descriptors) :=
  revoke_below_threshold_refused revokeStateCx ["root", "targets"] "k"
    "root" (by decide) (by decide)

end Taf
